import Mathlib

/-!
Verification of the IoU k-means anchor-clustering core
(`iou`, `avg_iou`, `kmeans` from `k_means_anchor_size.ipynb`).

Boxes are origin-anchored (width, height) pairs, embedded as pairs of
rationals.  The numpy array code is embedded as follows:

* `iou box clusters` mirrors the source `iou`: it first forms the
  elementwise minima (`x`, `y` in the source), raises the
  "Box has no area" `ValueError` when any entry is exactly zero, and
  otherwise returns one IoU value per cluster.
* `avg_iou` mirrors the source `avg_iou`: per-box maximum IoU
  (`np.max`, which fails on an empty reduction) averaged with `np.mean`.
* `kmeans` mirrors the source `kmeans`.  The ambient randomness of
  `np.random.choice(rows, k, replace=False)` is made explicit by a
  `sel` parameter giving the sampled indices, and the guard errors of
  `choice` are reproduced: indices exist only when the population is
  nonempty (unless no samples are taken) and `k` does not exceed it.
  The unbounded `while True` loop is given explicit fuel; exhausting
  the fuel is a distinguished error that the real loop never produces.
* `np.argmin(distances, axis=1)` raises on a zero-length reduction
  axis (`k = 0`); otherwise it returns the first index attaining the
  minimum of each row.  `assignStep` reproduces this, including the
  evaluation order: all per-row IoU computations run before argmin.
-/

namespace AnchorKMeans

abbrev Box := ℚ × ℚ

/-- The IoU value of one box against one cluster, as computed by the
source once the zero-intersection check has passed:
`intersection / (box_area + cluster_area - intersection)` with
`intersection = min(cluster_w, box_w) * min(cluster_h, box_h)`. -/
def iouVal (box c : Box) : ℚ :=
  let inter := min c.1 box.1 * min c.2 box.2
  inter / (box.1 * box.2 + c.1 * c.2 - inter)

/-- Source `iou(box, clusters)`: checks the elementwise minima for an
exact zero (raising `ValueError("Box has no area")`), then returns one
IoU per cluster. -/
def iou (box : Box) (clusters : List Box) : Except String (List ℚ) :=
  if (clusters.any fun c => decide (min c.1 box.1 = 0)) ||
      (clusters.any fun c => decide (min c.2 box.2 = 0)) then
    .error "Box has no area"
  else
    .ok (clusters.map (iouVal box))

/-- Left-to-right effectful map over a list, as a Python list
comprehension or a numpy per-row loop evaluates: the first raised
error aborts the whole computation. -/
def mapE {α β : Type} (f : α → Except String β) : List α → Except String (List β)
  | [] => .ok []
  | x :: xs =>
    match f x with
    | .error e => .error e
    | .ok y =>
      match mapE f xs with
      | .error e => .error e
      | .ok ys => .ok (y :: ys)

/-- Model of `np.max` over a 1-D array: fails on an empty array,
otherwise folds the binary maximum. -/
def npMax : List ℚ → Except String ℚ
  | [] => .error "zero-size array to reduction operation maximum which has no identity"
  | x :: xs => .ok (xs.foldl max x)

/-- Source `avg_iou(boxes, clusters)`: the mean over all boxes of the
best IoU against any cluster. -/
def avg_iou (boxes clusters : List Box) : Except String ℚ :=
  match mapE (fun b =>
      match iou b clusters with
      | .error e => .error e
      | .ok vs => npMax vs) boxes with
  | .error e => .error e
  | .ok maxima => .ok (maxima.sum / (maxima.length : ℚ))

/-- First index attaining the minimum of a list, with the minimum
value; `none` on the empty list.  Ties break to the lowest index, as
an `np.argmin` scan does. -/
def argminPair : List ℚ → Option (ℕ × ℚ)
  | [] => none
  | x :: xs =>
    match argminPair xs with
    | none => some (0, x)
    | some (j, v) => if x ≤ v then some (0, x) else some (j + 1, v)

/-- The assignment step of the source loop: fill the `(rows, k)`
distance matrix with `1 - iou(boxes[row], clusters)` row by row, then
`np.argmin(distances, axis=1)`.  numpy raises
`ValueError("attempt to get argmin of an empty sequence")` whenever
the reduction axis has length `k = 0`, after the distance rows have
been computed. -/
def assignStep (boxes : List Box) (k : ℕ) (clusters : List Box) : Except String (List ℕ) :=
  match mapE (fun b =>
      match iou b clusters with
      | .error e => .error e
      | .ok vs => .ok (vs.map (fun v => 1 - v))) boxes with
  | .error e => .error e
  | .ok dists =>
    if k = 0 then .error "attempt to get argmin of an empty sequence"
    else .ok (dists.map (fun row => ((argminPair row).getD (0, 0)).1))

/-- The update step of the source loop: for every cluster index,
apply the aggregator `dist` per dimension to the member boxes
(`clusters[cluster] = dist(boxes[nearest_clusters == cluster], axis=0)`). -/
def updateStep (boxes : List Box) (k : ℕ) (nearest : List ℕ) (dist : List ℚ → ℚ) :
    List Box :=
  (List.range k).map (fun c =>
    let members := ((boxes.zip nearest).filter (fun p => decide (p.2 = c))).map Prod.fst
    (dist (members.map Prod.fst), dist (members.map Prod.snd)))

/-- Insert into a sorted list of rationals. -/
def insertSorted (x : ℚ) : List ℚ → List ℚ
  | [] => [x]
  | y :: ys => if x ≤ y then x :: y :: ys else y :: insertSorted x ys

/-- Insertion sort of rationals, modelling the sort inside `np.median`. -/
def sortQ (l : List ℚ) : List ℚ := l.foldr insertSorted []

/-- Model of `np.median` of a 1-D array: middle element of the sorted
data when the length is odd, otherwise the mean of the two middle
elements. -/
def median (l : List ℚ) : ℚ :=
  let s := sortQ l
  let n := s.length
  if n % 2 = 1 then s.getD (n / 2) 0
  else (s.getD (n / 2 - 1) 0 + s.getD (n / 2) 0) / 2

/-- The source `while True` loop: compute the assignment, stop when it
equals the previous one (returning the current clusters, the
converged assignment, and the number of assignment steps performed),
otherwise aggregate each cluster anew and continue.  `fuel` bounds the
iteration count of the model only; running out is a distinguished
error the real loop never raises. -/
def kmeansLoop (boxes : List Box) (k : ℕ) (dist : List ℚ → ℚ) :
    List Box → List ℕ → ℕ → Except String (List Box × List ℕ × ℕ)
  | _, _, 0 => .error "model iteration budget exhausted"
  | clusters, last, fuel + 1 =>
    match assignStep boxes k clusters with
    | .error e => .error e
    | .ok nearest =>
      if nearest = last then .ok (clusters, nearest, 1)
      else
        match kmeansLoop boxes k dist (updateStep boxes k nearest dist) nearest fuel with
        | .error e => .error e
        | .ok (cs, a, n) => .ok (cs, a, n + 1)

/-- Source `kmeans(boxes, k, dist)` with the random sample made
explicit: `sel` lists the indices drawn by
`np.random.choice(rows, k, replace=False)`, whose two guard errors are
reproduced in order; `last_clusters` starts as the all-zeros vector.
Returns the final clusters, the converged assignment and the number of
assignment steps. -/
def kmeansAux (boxes : List Box) (k : ℕ) (dist : List ℚ → ℚ) (sel : List ℕ)
    (fuel : ℕ) : Except String (List Box × List ℕ × ℕ) :=
  let rows := boxes.length
  if rows = 0 ∧ k ≠ 0 then
    .error "a must be greater than 0 unless no samples are taken"
  else if k > rows then
    .error "Cannot take a larger sample than population when replace=False"
  else
    kmeansLoop boxes k dist (sel.map (fun i => boxes.getD i (0, 0)))
      (List.replicate rows 0) fuel

/-- Source `kmeans`, returning only the clusters as the source does. -/
def kmeans (boxes : List Box) (k : ℕ) (dist : List ℚ → ℚ) (sel : List ℕ)
    (fuel : ℕ) : Except String (List Box) :=
  (kmeansAux boxes k dist sel fuel).map Prod.fst

/-! ### Properties of the IoU metric -/

lemma iou_pos_ok {box : Box} {clusters : List Box} (hw : 0 < box.1) (hh : 0 < box.2)
    (hc : ∀ c ∈ clusters, 0 < c.1 ∧ 0 < c.2) :
    iou box clusters = .ok (clusters.map (iouVal box)) := by
  unfold iou
  rw [if_neg]
  intro h
  rcases Bool.or_eq_true_iff.mp h with h1 | h1 <;>
    rcases List.any_eq_true.mp h1 with ⟨c, hcmem, hc0⟩
  · exact absurd (of_decide_eq_true hc0)
      (ne_of_gt (lt_min (hc c hcmem).1 hw))
  · exact absurd (of_decide_eq_true hc0)
      (ne_of_gt (lt_min (hc c hcmem).2 hh))

lemma iouVal_nonneg {box c : Box} (hw : 0 < box.1) (hh : 0 < box.2)
    (hcw : 0 < c.1) (hch : 0 < c.2) : 0 ≤ iouVal box c := by
  unfold iouVal
  have hm1 : 0 < min c.1 box.1 := lt_min hcw hw
  have hm2 : 0 < min c.2 box.2 := lt_min hch hh
  have h1 : min c.1 box.1 ≤ box.1 := min_le_right _ _
  have h2 : min c.2 box.2 ≤ box.2 := min_le_right _ _
  refine le_of_lt (div_pos (mul_pos hm1 hm2) ?_)
  nlinarith [mul_le_mul h1 h2 hm2.le hw.le, mul_pos hcw hch]

lemma iouVal_le_one {box c : Box} (hw : 0 < box.1) (hh : 0 < box.2)
    (hcw : 0 < c.1) (hch : 0 < c.2) : iouVal box c ≤ 1 := by
  unfold iouVal
  have h1 : min c.1 box.1 ≤ box.1 := min_le_right _ _
  have h2 : min c.2 box.2 ≤ box.2 := min_le_right _ _
  have h3 : min c.1 box.1 ≤ c.1 := min_le_left _ _
  have h4 : min c.2 box.2 ≤ c.2 := min_le_left _ _
  have hm1 : 0 < min c.1 box.1 := lt_min hcw hw
  have hm2 : 0 < min c.2 box.2 := lt_min hch hh
  rw [div_le_one (by nlinarith)]
  nlinarith

lemma iouVal_self {b : Box} (hw : 0 < b.1) (hh : 0 < b.2) : iouVal b b = 1 := by
  unfold iouVal
  simp only [min_self]
  rw [add_sub_cancel_right]
  exact div_self (by positivity)

lemma iouVal_comm (b c : Box) : iouVal b c = iouVal c b := by
  unfold iouVal
  rw [min_comm c.1 b.1, min_comm c.2 b.2, add_comm (c.1 * c.2) (b.1 * b.2)]

/-! ### Effectful maps, maxima and error messages -/

instance {ε α : Type} [DecidableEq ε] [DecidableEq α] : DecidableEq (Except ε α) := fun x y =>
  match x, y with
  | .error a, .error b =>
    if h : a = b then .isTrue (congrArg Except.error h)
    else .isFalse (fun hh => h (Except.error.inj hh))
  | .ok a, .ok b =>
    if h : a = b then .isTrue (congrArg Except.ok h)
    else .isFalse (fun hh => h (Except.ok.inj hh))
  | .error _, .ok _ => .isFalse (fun hh => Except.noConfusion hh)
  | .ok _, .error _ => .isFalse (fun hh => Except.noConfusion hh)

lemma mapE_ok {α β : Type} {f : α → Except String β} {g : α → β} :
    ∀ {l : List α}, (∀ x ∈ l, f x = .ok (g x)) → mapE f l = .ok (l.map g)
  | [], _ => rfl
  | x :: xs, h => by
    unfold mapE
    rw [h x (List.mem_cons_self x xs), mapE_ok (fun y hy => h y (List.mem_cons_of_mem x hy))]
    rfl

lemma mapE_error {α β : Type} {f : α → Except String β} :
    ∀ {l : List α} {e : String}, mapE f l = .error e → ∃ x ∈ l, f x = .error e := by
  intro l
  induction l with
  | nil => intro e h; exact absurd h (by simp [mapE])
  | cons x xs ih =>
    intro e h
    unfold mapE at h
    cases hfx : f x with
    | error e1 =>
      rw [hfx] at h
      exact ⟨x, List.mem_cons_self x xs, hfx.trans (congrArg _ (Except.error.inj h))⟩
    | ok y =>
      rw [hfx] at h
      cases hrest : mapE f xs with
      | error e2 =>
        rw [hrest] at h
        obtain ⟨z, hz, hfz⟩ := ih (hrest.trans (congrArg _ (Except.error.inj h)))
        exact ⟨z, List.mem_cons_of_mem x hz, hfz⟩
      | ok ys => rw [hrest] at h; exact absurd h (by simp)

lemma foldl_max_le {b : ℚ} {l : List ℚ} : ∀ {x : ℚ}, x ≤ b → (∀ v ∈ l, v ≤ b) →
    l.foldl max x ≤ b := by
  induction l with
  | nil => intro x hx _; simpa using hx
  | cons y ys ih =>
    intro x hx h
    rw [List.foldl_cons]
    exact ih (max_le hx (h y (List.mem_cons_self y ys)))
      (fun v hv => h v (List.mem_cons_of_mem y hv))

lemma init_le_foldl_max : ∀ {l : List ℚ} {x : ℚ}, x ≤ l.foldl max x := by
  intro l
  induction l with
  | nil => intro x; simp
  | cons y ys ih =>
    intro x
    rw [List.foldl_cons]
    exact le_trans (le_max_left x y) ih

lemma mem_le_foldl_max : ∀ {l : List ℚ} {v : ℚ}, v ∈ l → ∀ x, v ≤ l.foldl max x := by
  intro l
  induction l with
  | nil => intro v hv; exact absurd hv (List.not_mem_nil v)
  | cons y ys ih =>
    intro v hv x
    rw [List.foldl_cons]
    rcases List.mem_cons.mp hv with rfl | hv2
    · exact le_trans (le_max_right x v) init_le_foldl_max
    · exact ih hv2 (max x y)

lemma npMax_eq_one {l : List ℚ} (hle : ∀ v ∈ l, v ≤ 1) (hmem : (1 : ℚ) ∈ l) :
    npMax l = .ok 1 := by
  cases l with
  | nil => exact absurd hmem (List.not_mem_nil 1)
  | cons x xs =>
    show Except.ok (xs.foldl max x) = Except.ok 1
    refine congrArg Except.ok (le_antisymm
      (foldl_max_le (hle x (List.mem_cons_self x xs))
        (fun v hv => hle v (List.mem_cons_of_mem x hv))) ?_)
    rcases List.mem_cons.mp hmem with h1 | h1
    · exact h1 ▸ init_le_foldl_max
    · exact mem_le_foldl_max h1 x

lemma iou_error_msg {box : Box} {clusters : List Box} {e : String}
    (h : iou box clusters = .error e) : e = "Box has no area" := by
  unfold iou at h
  split at h
  · exact (Except.error.inj h).symm
  · exact absurd h (by simp)

lemma assignStep_error_msg {boxes : List Box} {k : ℕ} {clusters : List Box} {e : String}
    (h : assignStep boxes k clusters = .error e) :
    e = "Box has no area" ∨ e = "attempt to get argmin of an empty sequence" := by
  unfold assignStep at h
  cases hm : mapE (fun b =>
      match iou b clusters with
      | .error e => .error e
      | .ok vs => .ok (vs.map (fun v => 1 - v))) boxes with
  | error e1 =>
    rw [hm] at h
    obtain ⟨b, _, hb⟩ := mapE_error hm
    left
    cases hio : iou b clusters with
    | error e2 =>
      rw [hio] at hb
      rw [← Except.error.inj h, ← Except.error.inj hb]
      exact iou_error_msg hio
    | ok vs => rw [hio] at hb; exact absurd hb (by simp)
  | ok dists =>
    rw [hm] at h
    dsimp only at h
    by_cases hk : k = 0
    · rw [if_pos hk] at h
      exact Or.inr (Except.error.inj h).symm
    · rw [if_neg hk] at h
      exact absurd h (by simp)

/-! ### Properties of the clustering loop -/

lemma kmeansLoop_fix {boxes : List Box} {k : ℕ} {dist : List ℚ → ℚ} :
    ∀ {fuel : ℕ} {clusters : List Box} {last : List ℕ} {cs : List Box} {a : List ℕ} {n : ℕ},
      kmeansLoop boxes k dist clusters last fuel = .ok (cs, a, n) →
      assignStep boxes k cs = .ok a := by
  intro fuel
  induction fuel with
  | zero =>
    intro clusters last cs a n h
    exact absurd h (by simp [kmeansLoop])
  | succ f ih =>
    intro clusters last cs a n h
    rw [kmeansLoop] at h
    cases ha : assignStep boxes k clusters with
    | error e =>
      rw [ha] at h
      exact absurd h (by simp)
    | ok nearest =>
      rw [ha] at h
      dsimp only at h
      by_cases hnl : nearest = last
      · rw [if_pos hnl] at h
        rw [Except.ok.injEq, Prod.mk.injEq, Prod.mk.injEq] at h
        obtain ⟨h1, h2, _⟩ := h
        rw [← h1, ← h2]
        exact ha
      · rw [if_neg hnl] at h
        cases hrec : kmeansLoop boxes k dist (updateStep boxes k nearest dist) nearest f with
        | error e =>
          rw [hrec] at h
          exact absurd h (by simp)
        | ok trip =>
          obtain ⟨cs1, a1, n1⟩ := trip
          rw [hrec] at h
          dsimp only at h
          rw [Except.ok.injEq, Prod.mk.injEq, Prod.mk.injEq] at h
          obtain ⟨h1, h2, _⟩ := h
          rw [← h1, ← h2]
          exact ih hrec

lemma kmeansLoop_error_msg {boxes : List Box} {k : ℕ} {dist : List ℚ → ℚ} :
    ∀ {fuel : ℕ} {clusters : List Box} {last : List ℕ} {e : String},
      kmeansLoop boxes k dist clusters last fuel = .error e →
      e = "Box has no area" ∨ e = "attempt to get argmin of an empty sequence" ∨
        e = "model iteration budget exhausted" := by
  intro fuel
  induction fuel with
  | zero =>
    intro clusters last e h
    rw [kmeansLoop] at h
    exact Or.inr (Or.inr (Except.error.inj h).symm)
  | succ f ih =>
    intro clusters last e h
    rw [kmeansLoop] at h
    cases ha : assignStep boxes k clusters with
    | error e1 =>
      rw [ha] at h
      dsimp only at h
      rcases assignStep_error_msg (ha.trans (congrArg _ (Except.error.inj h))) with h1 | h1
      · exact Or.inl h1
      · exact Or.inr (Or.inl h1)
    | ok nearest =>
      rw [ha] at h
      dsimp only at h
      by_cases hnl : nearest = last
      · rw [if_pos hnl] at h
        exact absurd h (by simp)
      · rw [if_neg hnl] at h
        cases hrec : kmeansLoop boxes k dist (updateStep boxes k nearest dist) nearest f with
        | error e2 =>
          rw [hrec] at h
          dsimp only at h
          exact (Except.error.inj h) ▸ ih hrec
        | ok trip =>
          obtain ⟨cs1, a1, n1⟩ := trip
          rw [hrec] at h
          exact absurd h (by simp)

/-- Declarative description of one run of the source loop, transcribing
the convergence rule: from state `(clusters, last)` the loop performs a
full assignment step; if the produced mapping equals `last` it stops
after this single iteration and returns the current clusters together
with that mapping, otherwise it recurses from the updated centroids
with the produced mapping as the new previous assignment.  The count
records how many assignment steps ran. -/
inductive LoopRun (boxes : List Box) (k : ℕ) (dist : List ℚ → ℚ) :
    List Box → List ℕ → ℕ → List Box → List ℕ → Prop
  | stop (clusters : List Box) (last : List ℕ)
      (h : assignStep boxes k clusters = .ok last) :
      LoopRun boxes k dist clusters last 1 clusters last
  | step (clusters : List Box) (last nearest : List ℕ) (n : ℕ) (cs : List Box) (a : List ℕ)
      (h1 : assignStep boxes k clusters = .ok nearest)
      (h2 : nearest ≠ last)
      (h3 : LoopRun boxes k dist (updateStep boxes k nearest dist) nearest n cs a) :
      LoopRun boxes k dist clusters last (n + 1) cs a

lemma LoopRun.one_le {boxes : List Box} {k : ℕ} {dist : List ℚ → ℚ}
    {clusters : List Box} {last : List ℕ} {n : ℕ} {cs : List Box} {a : List ℕ}
    (h : LoopRun boxes k dist clusters last n cs a) : 1 ≤ n := by
  cases h with
  | stop _ _ _ => exact le_refl 1
  | step _ _ _ m _ _ _ _ _ => exact Nat.le_add_left 1 m

lemma kmeansLoop_to_run {boxes : List Box} {k : ℕ} {dist : List ℚ → ℚ} :
    ∀ {fuel : ℕ} {clusters : List Box} {last : List ℕ} {cs : List Box} {a : List ℕ} {n : ℕ},
      kmeansLoop boxes k dist clusters last fuel = .ok (cs, a, n) →
      n ≤ fuel ∧ LoopRun boxes k dist clusters last n cs a := by
  intro fuel
  induction fuel with
  | zero =>
    intro clusters last cs a n h
    exact absurd h (by simp [kmeansLoop])
  | succ f ih =>
    intro clusters last cs a n h
    rw [kmeansLoop] at h
    cases ha : assignStep boxes k clusters with
    | error e =>
      rw [ha] at h
      exact absurd h (by simp)
    | ok nearest =>
      rw [ha] at h
      dsimp only at h
      by_cases hnl : nearest = last
      · rw [if_pos hnl] at h
        rw [Except.ok.injEq, Prod.mk.injEq, Prod.mk.injEq] at h
        obtain ⟨h1, h2, h3⟩ := h
        subst h1; subst h2; subst h3
        subst hnl
        exact ⟨Nat.one_le_iff_ne_zero.mpr (Nat.succ_ne_zero f),
          LoopRun.stop clusters nearest ha⟩
      · rw [if_neg hnl] at h
        cases hrec : kmeansLoop boxes k dist (updateStep boxes k nearest dist) nearest f with
        | error e =>
          rw [hrec] at h
          exact absurd h (by simp)
        | ok trip =>
          obtain ⟨cs1, a1, n1⟩ := trip
          rw [hrec] at h
          dsimp only at h
          rw [Except.ok.injEq, Prod.mk.injEq, Prod.mk.injEq] at h
          obtain ⟨h1, h2, h3⟩ := h
          subst h1; subst h2; subst h3
          obtain ⟨hle, hrun⟩ := ih hrec
          exact ⟨Nat.succ_le_succ hle,
            LoopRun.step clusters last nearest n1 cs1 a1 ha hnl hrun⟩

lemma run_to_kmeansLoop {boxes : List Box} {k : ℕ} {dist : List ℚ → ℚ}
    {clusters : List Box} {last : List ℕ} {cs : List Box} {a : List ℕ} {n : ℕ}
    (h : LoopRun boxes k dist clusters last n cs a) :
    ∀ {fuel : ℕ}, n ≤ fuel →
      kmeansLoop boxes k dist clusters last fuel = .ok (cs, a, n) := by
  induction h with
  | stop clusters last hstop =>
    intro fuel hfuel
    cases fuel with
    | zero => exact absurd hfuel (by omega)
    | succ f =>
      rw [kmeansLoop, hstop]
      dsimp only
      rw [if_pos rfl]
  | step clusters last nearest m cs1 a1 h1 h2 h3 ih =>
    intro fuel hfuel
    cases fuel with
    | zero => exact absurd hfuel (by omega)
    | succ f =>
      rw [kmeansLoop, h1]
      dsimp only
      rw [if_neg h2, ih (Nat.le_of_succ_le_succ hfuel)]

/-! ### The claims -/

/-- Claim C1: for every positive-area box and positive-area references,
`iou` returns one value per reference given by
`min(widths) * min(heights) / (box area + reference area - intersection)`,
and `iou((10,10), [(10,10),(5,5)])` returns `[1, 0.25]`. -/
theorem c1_iou_formula (box : Box) (clusters : List Box)
    (hw : 0 < box.1) (hh : 0 < box.2) (hc : ∀ c ∈ clusters, 0 < c.1 ∧ 0 < c.2) :
    iou box clusters = .ok (clusters.map (fun r =>
      (min box.1 r.1 * min box.2 r.2) /
        (box.1 * box.2 + r.1 * r.2 - min box.1 r.1 * min box.2 r.2))) ∧
    iou ((10 : ℚ), (10 : ℚ)) [((10 : ℚ), (10 : ℚ)), ((5 : ℚ), (5 : ℚ))] =
      .ok [1, 1 / 4] := by
  constructor
  · rw [iou_pos_ok hw hh hc]
    have hfun : iouVal box = (fun r =>
        (min box.1 r.1 * min box.2 r.2) /
          (box.1 * box.2 + r.1 * r.2 - min box.1 r.1 * min box.2 r.2)) := by
      funext r
      simp only [iouVal]
      rw [min_comm r.1 box.1, min_comm r.2 box.2]
    rw [hfun]
  · with_unfolding_all decide

theorem c1_witness :
    iou ((10 : ℚ), (10 : ℚ)) [((10 : ℚ), (10 : ℚ)), ((5 : ℚ), (5 : ℚ))] =
      .ok [1, 1 / 4] :=
  (c1_iou_formula ((10 : ℚ), (10 : ℚ)) [((10 : ℚ), (10 : ℚ)), ((5 : ℚ), (5 : ℚ))]
    (by norm_num) (by norm_num) (by decide)).2

/-- Claim C2: `iou` raises the "Box has no area" `ValueError` exactly
when some reference yields a zero intersection width or height, and
`iou((10,0), [(5,5)])` raises it. -/
theorem c2_iou_error_iff :
    (∀ (box : Box) (clusters : List Box),
      iou box clusters = .error "Box has no area" ↔
        ∃ c ∈ clusters, min box.1 c.1 = 0 ∨ min box.2 c.2 = 0) ∧
    iou ((10 : ℚ), (0 : ℚ)) [((5 : ℚ), (5 : ℚ))] = .error "Box has no area" := by
  constructor
  · intro box clusters
    have key : iou box clusters = .error "Box has no area" ↔
        ((clusters.any fun c => decide (min c.1 box.1 = 0)) ||
          (clusters.any fun c => decide (min c.2 box.2 = 0))) = true := by
      unfold iou
      split
      next hcond => simp [hcond]
      next hcond => simp [hcond]
    rw [key, Bool.or_eq_true]
    simp only [List.any_eq_true, decide_eq_true_eq]
    constructor
    · rintro (⟨c, hcm, h0⟩ | ⟨c, hcm, h0⟩)
      · exact ⟨c, hcm, Or.inl (by rw [min_comm]; exact h0)⟩
      · exact ⟨c, hcm, Or.inr (by rw [min_comm]; exact h0)⟩
    · rintro ⟨c, hcm, h0 | h0⟩
      · exact Or.inl ⟨c, hcm, by rw [min_comm]; exact h0⟩
      · exact Or.inr ⟨c, hcm, by rw [min_comm]; exact h0⟩
  · with_unfolding_all decide

theorem c2_witness :
    iou ((10 : ℚ), (0 : ℚ)) [((5 : ℚ), (5 : ℚ))] = .error "Box has no area" ∧
    (∃ c ∈ [((5 : ℚ), (5 : ℚ))],
      min ((10 : ℚ), (0 : ℚ)).1 c.1 = 0 ∨ min ((10 : ℚ), (0 : ℚ)).2 c.2 = 0) :=
  ⟨c2_iou_error_iff.2,
    (c2_iou_error_iff.1 ((10 : ℚ), (0 : ℚ)) [((5 : ℚ), (5 : ℚ))]).mp c2_iou_error_iff.2⟩

/-- Claim C6: for a positive-area box and a nonempty list of
positive-area references, every returned IoU lies in `[0, 1]`, and
`iou(B, [B])` returns exactly `[1]`. -/
theorem c6_iou_unit_range (B : Box) (R : List Box)
    (hw : 0 < B.1) (hh : 0 < B.2) (hR : ∀ c ∈ R, 0 < c.1 ∧ 0 < c.2) (hne : R ≠ []) :
    (∃ vs, iou B R = .ok vs ∧ vs.length = R.length ∧ ∀ v ∈ vs, 0 ≤ v ∧ v ≤ 1) ∧
    iou B [B] = .ok [1] := by
  refine ⟨⟨R.map (iouVal B), iou_pos_ok hw hh hR, List.length_map R _, ?_⟩, ?_⟩
  · intro v hv
    obtain ⟨c, hcm, rfl⟩ := List.mem_map.mp hv
    exact ⟨iouVal_nonneg hw hh (hR c hcm).1 (hR c hcm).2,
      iouVal_le_one hw hh (hR c hcm).1 (hR c hcm).2⟩
  · rw [iou_pos_ok hw hh (fun c hcm => by
      rw [List.mem_singleton] at hcm; subst hcm; exact ⟨hw, hh⟩)]
    rw [List.map_singleton, iouVal_self hw hh]

theorem c6_witness :
    (∃ vs, iou ((10 : ℚ), (10 : ℚ)) [((5 : ℚ), (5 : ℚ))] = .ok vs ∧
      vs.length = 1 ∧ ∀ v ∈ vs, 0 ≤ v ∧ v ≤ 1) ∧
    iou ((10 : ℚ), (10 : ℚ)) [((10 : ℚ), (10 : ℚ))] = .ok [1] :=
  c6_iou_unit_range ((10 : ℚ), (10 : ℚ)) [((5 : ℚ), (5 : ℚ))]
    (by norm_num) (by norm_num) (by decide) (List.cons_ne_nil _ _)

/-- Claim C9: `iou` is symmetric on positive-area boxes:
`iou(B, [C])` and `iou(C, [B])` return the same singleton. -/
theorem c9_iou_symm (B C : Box) (hB1 : 0 < B.1) (hB2 : 0 < B.2)
    (hC1 : 0 < C.1) (hC2 : 0 < C.2) :
    ∃ v, iou B [C] = .ok [v] ∧ iou C [B] = .ok [v] := by
  refine ⟨iouVal B C, ?_, ?_⟩
  · rw [iou_pos_ok hB1 hB2 (fun c hcm => by
      rw [List.mem_singleton] at hcm; subst hcm; exact ⟨hC1, hC2⟩)]
    rw [List.map_singleton]
  · rw [iou_pos_ok hC1 hC2 (fun c hcm => by
      rw [List.mem_singleton] at hcm; subst hcm; exact ⟨hB1, hB2⟩)]
    rw [List.map_singleton, iouVal_comm C B]

theorem c9_witness :
    ∃ v, iou ((10 : ℚ), (10 : ℚ)) [((5 : ℚ), (5 : ℚ))] = .ok [v] ∧
      iou ((5 : ℚ), (5 : ℚ)) [((10 : ℚ), (10 : ℚ))] = .ok [v] :=
  c9_iou_symm ((10 : ℚ), (10 : ℚ)) ((5 : ℚ), (5 : ℚ))
    (by norm_num) (by norm_num) (by norm_num) (by norm_num)

/-- Claim C7: scoring a nonempty positive-area dataset against itself,
`avg_iou(boxes, boxes)` equals `1`: each box attains maximum IoU `1`
against itself. -/
theorem c7_avg_iou_self (boxes : List Box) (hne : boxes ≠ [])
    (hpos : ∀ b ∈ boxes, 0 < b.1 ∧ 0 < b.2) :
    avg_iou boxes boxes = .ok 1 := by
  unfold avg_iou
  have hmap : mapE (fun b =>
      match iou b boxes with
      | .error e => .error e
      | .ok vs => npMax vs) boxes = .ok (boxes.map (fun _ => (1 : ℚ))) := by
    refine mapE_ok ?_
    intro b hb
    rw [iou_pos_ok (hpos b hb).1 (hpos b hb).2 hpos]
    dsimp only
    refine npMax_eq_one ?_ ?_
    · intro v hv
      obtain ⟨c, hcm, rfl⟩ := List.mem_map.mp hv
      exact iouVal_le_one (hpos b hb).1 (hpos b hb).2 (hpos c hcm).1 (hpos c hcm).2
    · exact List.mem_map.mpr ⟨b, hb, iouVal_self (hpos b hb).1 (hpos b hb).2⟩
  rw [hmap]
  dsimp only
  rw [List.map_const', List.sum_replicate, List.length_replicate, nsmul_eq_mul, mul_one]
  rw [div_self (Nat.cast_ne_zero.mpr (fun h0 => hne (List.length_eq_zero.mp h0)))]

theorem c7_witness :
    avg_iou [((10 : ℚ), (10 : ℚ))] [((10 : ℚ), (10 : ℚ))] = .ok 1 :=
  c7_avg_iou_self [((10 : ℚ), (10 : ℚ))] (List.cons_ne_nil _ _) (by decide)

/-- Claim C8: at convergence the assignment step is a fixed point: any
successful `kmeans` run returns centroids whose freshly recomputed
assignment equals the assignment whose stability ended the loop. -/
theorem c8_idempotent (boxes : List Box) (k : ℕ) (dist : List ℚ → ℚ) (sel : List ℕ)
    (fuel : ℕ) (cs : List Box) (a : List ℕ) (n : ℕ)
    (h : kmeansAux boxes k dist sel fuel = .ok (cs, a, n)) :
    assignStep boxes k cs = .ok a := by
  simp only [kmeansAux] at h
  split at h
  · exact absurd h (by simp)
  · split at h
    · exact absurd h (by simp)
    · exact kmeansLoop_fix h

theorem c8_witness :
    assignStep [((10 : ℚ), (10 : ℚ))] 1 [((10 : ℚ), (10 : ℚ))] = .ok [0] :=
  c8_idempotent [((10 : ℚ), (10 : ℚ))] 1 median [0] 2 [((10 : ℚ), (10 : ℚ))] [0] 1
    (by with_unfolding_all decide)

/-- Claim C4: a `kmeans` call succeeds with clusters `cs`, assignment
`a` and iteration count `n` exactly when `k` does not exceed the number
of boxes and the loop, started from the sampled centroids with the
all-zeros sentinel as previous assignment, runs `n ≥ 1` full assignment
steps and stops at the first one that reproduces the previous mapping,
returning the then-current centroids. -/
theorem c4_convergence_iff (boxes : List Box) (k : ℕ) (dist : List ℚ → ℚ) (sel : List ℕ)
    (fuel : ℕ) (cs : List Box) (a : List ℕ) (n : ℕ) :
    kmeansAux boxes k dist sel fuel = .ok (cs, a, n) ↔
      (k ≤ boxes.length ∧ 1 ≤ n ∧ n ≤ fuel ∧
        LoopRun boxes k dist (sel.map (fun i => boxes.getD i (0, 0)))
          (List.replicate boxes.length 0) n cs a) := by
  constructor
  · intro h
    simp only [kmeansAux] at h
    by_cases h1 : boxes.length = 0 ∧ ¬k = 0
    · rw [if_pos h1] at h
      exact absurd h (by simp)
    · rw [if_neg h1] at h
      by_cases h2 : boxes.length < k
      · rw [if_pos h2] at h
        exact absurd h (by simp)
      · rw [if_neg h2] at h
        obtain ⟨hle, hrun⟩ := kmeansLoop_to_run h
        exact ⟨Nat.not_lt.mp h2, hrun.one_le, hle, hrun⟩
  · rintro ⟨hk, _, hnf, hrun⟩
    simp only [kmeansAux]
    have hA : ¬(boxes.length = 0 ∧ ¬k = 0) := by
      rintro ⟨hlen0, hk0⟩
      exact hk0 (Nat.le_zero.mp (hlen0 ▸ hk))
    have hB : ¬(boxes.length < k) := Nat.not_lt.mpr hk
    rw [if_neg hA, if_neg hB]
    exact run_to_kmeansLoop hrun hnf

theorem c4_witness :
    1 ≤ [((10 : ℚ), (10 : ℚ))].length ∧ (1 : ℕ) ≤ 1 ∧ (1 : ℕ) ≤ 2 ∧
      LoopRun [((10 : ℚ), (10 : ℚ))] 1 median
        ([0].map (fun i => [((10 : ℚ), (10 : ℚ))].getD i (0, 0)))
        (List.replicate [((10 : ℚ), (10 : ℚ))].length 0) 1
        [((10 : ℚ), (10 : ℚ))] [0] :=
  (c4_convergence_iff [((10 : ℚ), (10 : ℚ))] 1 median [0] 2
    [((10 : ℚ), (10 : ℚ))] [0] 1).mp (by with_unfolding_all decide)

/-- Claim C10: with `k = 1` on a nonempty positive-area dataset, the
very first assignment is all zeros, equal to the sentinel, so the loop
stops after one assignment step, never runs the update step (the
result is the same for every aggregator `dist`), and returns exactly
the initially sampled box. -/
theorem c10_k_one (boxes : List Box) (dist : List ℚ → ℚ) (i fuel : ℕ)
    (hne : boxes ≠ []) (hpos : ∀ b ∈ boxes, 0 < b.1 ∧ 0 < b.2) (hi : i < boxes.length) :
    kmeansAux boxes 1 dist [i] (fuel + 1) =
      .ok ([boxes.getD i (0, 0)], List.replicate boxes.length 0, 1) ∧
    kmeans boxes 1 dist [i] (fuel + 1) = .ok [boxes.getD i (0, 0)] := by
  have hlen : boxes.length ≠ 0 := fun h0 => hne (List.length_eq_zero.mp h0)
  have hcm : boxes.getD i (0, 0) ∈ boxes := by
    rw [List.getD_eq_getElem boxes (0, 0) hi]
    exact List.getElem_mem hi
  have hassign : assignStep boxes 1 [boxes.getD i (0, 0)] =
      .ok (List.replicate boxes.length 0) := by
    unfold assignStep
    rw [mapE_ok (g := fun b => [1 - iouVal b (boxes.getD i (0, 0))]) (fun b hb => by
      rw [iou_pos_ok (hpos b hb).1 (hpos b hb).2 (fun c hc => by
        rw [List.mem_singleton] at hc; subst hc; exact hpos _ hcm)]
      rfl)]
    dsimp only
    rw [if_neg one_ne_zero, List.map_map]
    rw [show ((fun row => ((argminPair row).getD (0, 0)).1) ∘
        (fun b => [1 - iouVal b (boxes.getD i (0, 0))])) = (fun _ => (0 : ℕ)) from rfl]
    rw [List.map_const']
  have hAux : kmeansAux boxes 1 dist [i] (fuel + 1) =
      .ok ([boxes.getD i (0, 0)], List.replicate boxes.length 0, 1) := by
    simp only [kmeansAux]
    rw [if_neg (fun hand => hlen hand.1), if_neg (Nat.not_lt.mpr (Nat.one_le_iff_ne_zero.mpr hlen))]
    rw [List.map_singleton, kmeansLoop, hassign]
    dsimp only
    rw [if_pos rfl]
  exact ⟨hAux, by rw [kmeans, hAux]; rfl⟩

theorem c10_witness :
    kmeans [((10 : ℚ), (10 : ℚ)), ((20 : ℚ), (20 : ℚ))] 1 median [1] 1 =
      .ok [((20 : ℚ), (20 : ℚ))] :=
  (c10_k_one [((10 : ℚ), (10 : ℚ)), ((20 : ℚ), (20 : ℚ))] median 1 0
    (List.cons_ne_nil _ _) (by decide) (by decide)).2

/-- The concrete dataset of the duplicated-boxes scenario:
two 100-by-100 boxes followed by two 10-by-10 boxes. -/
def c5Boxes : List Box := [(100, 100), (100, 100), (10, 10), (10, 10)]

/-- Claim C5 counterexample: the run whose initial random sample draws
the two duplicate 100-by-100 boxes (indices 0 and 1, a legal draw of
`np.random.choice(4, 2, replace=False)`) terminates immediately with
both centroids equal to `(100, 100)` and an average best IoU of
`101/200`, not `1`. -/
theorem c5_counterexample :
    kmeans c5Boxes 2 median [0, 1] 10 = .ok [(100, 100), (100, 100)] ∧
    avg_iou c5Boxes [(100, 100), (100, 100)] = .ok (101 / 200) ∧
    ((101 : ℚ) / 200 ≠ 1) := by
  refine ⟨?_, ?_, ?_⟩ <;> with_unfolding_all decide

/-- Claim C5 as amended: every run whose initial sample contains one
box of each size converges to centroids `(100,100)` and `(10,10)` in
some index order, with average best IoU `1`; runs drawing two equal
boxes (see the counterexample) instead stop at once with duplicated
centroids and average best IoU `101/200`. -/
theorem c5_amended (sel : List ℕ)
    (hsel : sel ∈ [[0, 2], [0, 3], [1, 2], [1, 3], [2, 0], [2, 1], [3, 0], [3, 1]]) :
    (kmeans c5Boxes 2 median sel 10 = .ok [(100, 100), (10, 10)] ∨
      kmeans c5Boxes 2 median sel 10 = .ok [(10, 10), (100, 100)]) ∧
    avg_iou c5Boxes [(100, 100), (10, 10)] = .ok 1 ∧
    avg_iou c5Boxes [(10, 10), (100, 100)] = .ok 1 := by
  fin_cases hsel <;>
    refine ⟨?_, by with_unfolding_all decide, by with_unfolding_all decide⟩ <;>
    first
      | exact Or.inl (by with_unfolding_all decide)
      | exact Or.inr (by with_unfolding_all decide)

theorem c5_witness :
    (kmeans c5Boxes 2 median [0, 2] 10 = .ok [(100, 100), (10, 10)] ∨
      kmeans c5Boxes 2 median [0, 2] 10 = .ok [(10, 10), (100, 100)]) ∧
    avg_iou c5Boxes [(100, 100), (10, 10)] = .ok 1 ∧
    avg_iou c5Boxes [(10, 10), (100, 100)] = .ok 1 :=
  c5_amended [0, 2] (List.mem_cons_self _ _)

/-- Claim C3 counterexample: for `k = 0` on a nonempty dataset the code
does not fail fast before the loop: the sampling step succeeds, the
IoU distance rows of the first assignment step are computed (IoU
against zero clusters succeeds, last conjunct), and the failure is the
argmin `ValueError` raised inside the first iteration — not either of
the two pre-loop sampling errors. -/
theorem c3_counterexample :
    kmeans [((10 : ℚ), (10 : ℚ))] 0 median [] 5 =
      .error "attempt to get argmin of an empty sequence" ∧
    kmeans [((10 : ℚ), (10 : ℚ))] 0 median [] 5 ≠
      .error "a must be greater than 0 unless no samples are taken" ∧
    kmeans [((10 : ℚ), (10 : ℚ))] 0 median [] 5 ≠
      .error "Cannot take a larger sample than population when replace=False" ∧
    iou ((10 : ℚ), (10 : ℚ)) [] = .ok [] := by
  refine ⟨?_, ?_, ?_, ?_⟩ <;> with_unfolding_all decide

/-- Claim C3 as amended: `kmeans` fails fast before any iteration with
a sampling error when the dataset is empty and `k ≠ 0`, or when
`k` exceeds the number of boxes; for `k = 0` it instead fails inside
the first assignment step with the argmin error; and for `k` equal to
the number of boxes neither pre-loop sampling error is ever raised. -/
theorem c3_amended (boxes : List Box) (k : ℕ) (dist : List ℚ → ℚ) (sel : List ℕ)
    (fuel : ℕ) :
    (boxes = [] → k ≠ 0 → kmeansAux boxes k dist sel fuel =
      .error "a must be greater than 0 unless no samples are taken") ∧
    (boxes ≠ [] → boxes.length < k → kmeansAux boxes k dist sel fuel =
      .error "Cannot take a larger sample than population when replace=False") ∧
    (1 ≤ fuel → kmeansAux boxes 0 dist [] fuel =
      .error "attempt to get argmin of an empty sequence") ∧
    (k = boxes.length →
      kmeansAux boxes k dist sel fuel ≠
        .error "a must be greater than 0 unless no samples are taken" ∧
      kmeansAux boxes k dist sel fuel ≠
        .error "Cannot take a larger sample than population when replace=False") := by
  refine ⟨?_, ?_, ?_, ?_⟩
  · intro hb hk
    subst hb
    simp only [kmeansAux]
    rw [if_pos ⟨rfl, hk⟩]
  · intro hb hlt
    simp only [kmeansAux]
    rw [if_neg (fun hand => hb (List.length_eq_zero.mp hand.1)), if_pos hlt]
  · intro hfuel
    obtain ⟨f, rfl⟩ : ∃ f, fuel = f + 1 := ⟨fuel - 1, by omega⟩
    have hstep : assignStep boxes 0 ([] : List Box) =
        .error "attempt to get argmin of an empty sequence" := by
      unfold assignStep
      have hmapE : mapE (fun b =>
          match iou b ([] : List Box) with
          | .error e => .error e
          | .ok vs => .ok (vs.map (fun v => 1 - v))) boxes =
          .ok (boxes.map (fun _ => ([] : List ℚ))) := mapE_ok (fun b _ => rfl)
      rw [hmapE]
      dsimp only
      rw [if_pos rfl]
    simp only [kmeansAux]
    rw [if_neg (fun hand => hand.2 rfl), if_neg (Nat.not_lt.mpr (Nat.zero_le _))]
    rw [List.map_nil, kmeansLoop, hstep]
  · intro hk
    have hA : ¬(boxes.length = 0 ∧ ¬k = 0) := fun hand => hand.2 (hk.trans hand.1)
    have hB : ¬(boxes.length < k) := by omega
    constructor
    · intro h
      simp only [kmeansAux, if_neg hA, if_neg hB] at h
      rcases kmeansLoop_error_msg h with h1 | h1 | h1 <;> exact absurd h1 (by decide)
    · intro h
      simp only [kmeansAux, if_neg hA, if_neg hB] at h
      rcases kmeansLoop_error_msg h with h1 | h1 | h1 <;> exact absurd h1 (by decide)

theorem c3_witness :
    kmeansAux [((10 : ℚ), (10 : ℚ))] 0 median [] 1 =
      .error "attempt to get argmin of an empty sequence" :=
  (c3_amended [((10 : ℚ), (10 : ℚ))] 0 median [] 1).2.2.1 (le_refl 1)

end AnchorKMeans
